import Mathlib

/-!
# Mapping registry of `src/rpc/bet.cpp` (Wagerr), shallowly embedded

This file embeds the two RPC handlers `getmappingid` and `getmappingname`
from `src/rpc/bet.cpp` and proves the registry's spec-level properties.

The `std::map<uint32_t, CMapping>` index is embedded as an association list
of `(key, record)` pairs; iterating a `std::map` visits keys in strictly
ascending order, which the predicate `sortedKeys` captures.  `uint32_t`
values are embedded as `Nat` (the operations at issue never overflow a
32-bit counter on an index with 32-bit keys, except on the degenerate
completely-full index, which no claim exercises).

The Type Catalog (`CMapping::FromTypeName` / `CMapping::ToTypeName`) and
the persistent store (`CMappingDB::Read` / `CMappingDB::Save`) are declared
in `betting/bet.h`, which is not part of the available sources; they are
modelled from the spec where indicated.
-/

/-- The closed set of mapping namespaces (`MappingTypes` in `betting/bet.h`).
Modelled from the spec: the enumeration itself is not in the available
sources; the spec names sport, region, tournament and team as examples of
the closed set.  `unknownMapping` stands for the out-of-range value that
`FromTypeName` yields on an unrecognised token (the C++ enum has no such
member; the cast-out-of-range result behaves as one). -/
inductive MappingTypes where
  | sportMapping
  | regionMapping
  | tournamentMapping
  | teamMapping
  | unknownMapping
deriving DecidableEq, Repr

/-- One persisted mapping record (`CMapping` in `betting/bet.h`):
namespace, numeric id, string name, format version. -/
structure CMapping where
  nMType : MappingTypes
  nId : Nat
  sName : String
  nVersion : Nat
deriving DecidableEq, Repr

namespace CMapping

/-- Modelled from the spec: `CMapping::ToTypeName` (Type Catalog,
`betting/bet.h`, not in the available sources) — canonical token of each
namespace; the unknown value has no token. -/
def ToTypeName : MappingTypes → String
  | .sportMapping => "sport"
  | .regionMapping => "region"
  | .tournamentMapping => "tournament"
  | .teamMapping => "team"
  | .unknownMapping => ""

/-- Modelled from the spec: `CMapping::FromTypeName` (Type Catalog,
`betting/bet.h`, not in the available sources) — inverse lookup of
`ToTypeName`, yielding the out-of-range value on unrecognised tokens. -/
def FromTypeName (s : String) : MappingTypes :=
  if s = "sport" then .sportMapping
  else if s = "region" then .regionMapping
  else if s = "tournament" then .tournamentMapping
  else if s = "team" then .teamMapping
  else .unknownMapping

end CMapping

/-- The per-namespace index `mappingIndex_t = std::map<uint32_t, CMapping>`,
embedded as the association list of its `(key, record)` pairs in iteration
order. -/
abbrev mappingIndex_t := List (Nat × CMapping)

/-- A `std::map` iterates its `(key, record)` pairs with strictly
increasing keys; an embedded index is well-formed when its list is so
ordered. -/
def sortedKeys (es : mappingIndex_t) : Prop :=
  es.Pairwise (fun a b => a.1 < b.1)

instance (es : mappingIndex_t) : Decidable (sortedKeys es) := by
  unfold sortedKeys; infer_instance

/-- Data-integrity property of a loaded index: each record's stored `nId`
field equals the map key it is filed under. -/
def idsMatchKeys (es : mappingIndex_t) : Prop :=
  ∀ e ∈ es, e.2.nId = e.1

instance (es : mappingIndex_t) : Decidable (idsMatchKeys es) := by
  unfold idsMatchKeys; infer_instance

/-- Name-lookup half of the loop body of `getmappingid`
(`bet.cpp:66-73`): once `mappingFound` is set it is never revisited;
before that, a record whose `sName` equals the requested name records that
record's stored `nId` field. -/
def nameStep (name : String) (found : Option Nat) (e : Nat × CMapping) : Option Nat :=
  match found with
  | some i => some i
  | none => if e.2.sName == name then some e.2.nId else none

/-- Free-slot half of the loop body of `getmappingid` (`bet.cpp:74-81`):
state is `(nFirstIndexFree, FirstIndexFreeFound)`; while not found, a key
different from the candidate fixes the candidate, a key equal to it bumps
the candidate by one. -/
def freeStep (st : Nat × Bool) (e : Nat × CMapping) : Nat × Bool :=
  if st.2 then st
  else if e.1 ≠ st.1 then (st.1, true)
  else (st.1 + 1, false)

/-- One iteration of the scan loop of `getmappingid` (`bet.cpp:64-82`):
both trackers advance on the same record. -/
def scanStep (name : String) (st : Option Nat × Nat × Bool) (e : Nat × CMapping) :
    Option Nat × Nat × Bool :=
  (nameStep name st.1 e, freeStep st.2 e)

/-- The full single pass of `getmappingid` over the index, starting from
`mappingFound` unset, `nFirstIndexFree = 0`, `FirstIndexFreeFound = false`. -/
def scanIndex (es : mappingIndex_t) (name : String) : Option Nat × Nat × Bool :=
  es.foldl (scanStep name) (none, 0, false)

/-- The free slot `getmappingid` computes for an index: the final
`nFirstIndexFree` of the scan. -/
def freeSlot (es : mappingIndex_t) : Nat :=
  (es.foldl freeStep (0, false)).1

/-- The persistent store, keyed by namespace.  Modelled from the spec:
`CMappingDB` (`betting/bet.h`) is not in the available sources; the spec
gives it `loadNamespaceIndex(type) -> MappingIndex or NotFound`, embedded
as `data type : Option mappingIndex_t`. -/
structure Store where
  data : MappingTypes → Option mappingIndex_t

/-- Insertion of one keyed record into an index, keeping keys sorted and
unique, exactly as a `std::map` write does. -/
def insertEntry : mappingIndex_t → Nat → CMapping → mappingIndex_t
  | [], k, cm => [(k, cm)]
  | e :: rest, k, cm =>
    if k < e.1 then (k, cm) :: e :: rest
    else if k = e.1 then (k, cm) :: rest
    else e :: insertEntry rest k cm

/-- Modelled from the spec: `CMappingDB::Save` (`betting/bet.h`, not in the
available sources) — `saveRecord(record)` durably appends the one record to
its namespace's index, keyed by its id. -/
def Store.save (s : Store) (cm : CMapping) : Store :=
  ⟨fun t => if t = cm.nMType then (s.data t).map (fun es => insertEntry es cm.nId cm)
            else s.data t⟩

deriving instance DecidableEq for Except

/-- The error taxonomy of the two handlers (each a distinct
`std::runtime_error` message in `bet.cpp`). -/
inductive RpcError where
  | invalidMappingType
  | indexUnavailable
  | mappingNotFound
deriving DecidableEq, Repr

/-- The JSON object `getmappingid` returns: fields `mapping-id`, `exists`,
`mapping-index` (`bet.cpp:68-70,93-95`).  `created` in the spec's terms is
the negation of `existsFlag`. -/
structure MappingIdResult where
  mappingId : Nat
  existsFlag : Bool
  mappingIndexStr : String
deriving DecidableEq, Repr

/-- The JSON object `getmappingname` returns: fields `mapping-name`,
`exists`, `mapping-index` (`bet.cpp:151-153`). -/
structure MappingNameResult where
  mappingName : String
  existsFlag : Bool
  mappingIndexStr : String
deriving DecidableEq, Repr

/-- The RPC handler `getmappingid` (`bet.cpp:24-101`), returning its result
(or error) together with the post-call store (the store is written only on
the create path, via `CMappingDB::Save`). -/
def getmappingid (store : Store) (mIndex name : String) :
    Except RpcError MappingIdResult × Store :=
  let type := CMapping.FromTypeName mIndex
  if CMapping.ToTypeName type ≠ mIndex then
    (.error .invalidMappingType, store)
  else
    match store.data type with
    | none => (.error .indexUnavailable, store)
    | some mappingIndex =>
      let st := scanIndex mappingIndex name
      match st.1 with
      | some nId => (.ok ⟨nId, true, mIndex⟩, store)
      | none =>
        let cm : CMapping := ⟨type, st.2.1, name, 1⟩
        (.ok ⟨st.2.1, false, mIndex⟩, store.save cm)

/-- The RPC handler `getmappingname` (`bet.cpp:111-166`), returning its
result (or error) together with the post-call store (it never writes, so
the store is always returned unchanged).  The loop with `break`
(`bet.cpp:149-157`) is the first record whose map key equals the requested
id. -/
def getmappingname (store : Store) (mIndex : String) (id : Nat) :
    Except RpcError MappingNameResult × Store :=
  let type := CMapping.FromTypeName mIndex
  if CMapping.ToTypeName type ≠ mIndex then
    (.error .invalidMappingType, store)
  else
    match store.data type with
    | none => (.error .indexUnavailable, store)
    | some mappingIndex =>
      match mappingIndex.find? (fun e => e.1 == id) with
      | some e => (.ok ⟨e.2.sName, true, mIndex⟩, store)
      | none => (.error .mappingNotFound, store)

/-- Sample index with ids `{0, 1, 3}` (the spec's smallest-free-slot
example). -/
def sample13 : mappingIndex_t :=
  [(0, ⟨.teamMapping, 0, "Alpha", 1⟩),
   (1, ⟨.teamMapping, 1, "Beta", 1⟩),
   (3, ⟨.teamMapping, 3, "Gamma", 1⟩)]

/-- Sample store holding `sample13` under the team namespace and no other
index. -/
def sampleStore : Store :=
  ⟨fun t => if t = .teamMapping then some sample13 else none⟩

/-- Sample index with two records sharing one name (a data-integrity
violation). -/
def sampleDup : mappingIndex_t :=
  [(0, ⟨.teamMapping, 0, "Dup", 1⟩),
   (2, ⟨.teamMapping, 2, "Dup", 1⟩)]

/-- Store holding `sampleDup` under the team namespace. -/
def sampleDupStore : Store :=
  ⟨fun t => if t = .teamMapping then some sampleDup else none⟩

/-- Sample index whose single record is filed under key `0` but stores
`nId = 7`. -/
def sampleMis : mappingIndex_t :=
  [(0, ⟨.teamMapping, 7, "Odd", 1⟩)]

/-- Store holding `sampleMis` under the team namespace. -/
def sampleMisStore : Store :=
  ⟨fun t => if t = .teamMapping then some sampleMis else none⟩

/-! ## Basic lemmas about the scan loop -/

/-- Once `mappingFound` is set, the rest of the scan leaves it unchanged
(`bet.cpp:66`: the body of the name check is guarded by `!mappingFound`). -/
theorem foldl_nameStep_some (es : mappingIndex_t) (name : String) (i : Nat) :
    es.foldl (nameStep name) (some i) = some i := by
  induction es with
  | nil => rfl
  | cons e es ih => simpa [nameStep] using ih

/-- The name tracker of the scan computes the stored `nId` field of the
first record whose `sName` equals the requested name. -/
theorem foldl_nameStep_none (es : mappingIndex_t) (name : String) :
    es.foldl (nameStep name) none =
      (es.find? (fun e => e.2.sName == name)).map (fun e => e.2.nId) := by
  induction es with
  | nil => rfl
  | cons e es ih =>
    cases h : e.2.sName == name with
    | true =>
      have hf : (e :: es).find? (fun x => x.2.sName == name) = some e :=
        List.find?_cons_of_pos es (show (fun x : Nat × CMapping => x.2.sName == name) e = true from h)
      rw [List.foldl_cons, hf]
      simp [nameStep, h, foldl_nameStep_some]
    | false =>
      have hf : (e :: es).find? (fun x => x.2.sName == name) =
          es.find? (fun x => x.2.sName == name) :=
        List.find?_cons_of_neg es (show ¬(fun x : Nat × CMapping => x.2.sName == name) e = true from by simp [h])
      rw [List.foldl_cons, hf]
      simpa [nameStep, h] using ih

/-- Once `FirstIndexFreeFound` is set, the rest of the scan leaves the
free-slot tracker unchanged (`bet.cpp:75`). -/
theorem foldl_freeStep_true (es : mappingIndex_t) (c : Nat) :
    es.foldl freeStep (c, true) = (c, true) := by
  induction es with
  | nil => rfl
  | cons e es ih => simpa [freeStep] using ih

/-- The two trackers of the scan loop advance independently, so the scan
splits into the name fold and the free-slot fold. -/
theorem foldl_scanStep_decomp (es : mappingIndex_t) (name : String)
    (f : Option Nat) (s : Nat × Bool) :
    es.foldl (scanStep name) (f, s) =
      (es.foldl (nameStep name) f, es.foldl freeStep s) := by
  induction es generalizing f s with
  | nil => rfl
  | cons e es ih => simpa [scanStep] using ih (nameStep name f e) (freeStep s e)

/-- The scan of `getmappingid` is the pair of the name lookup and the free
slot. -/
theorem scanIndex_eq (es : mappingIndex_t) (name : String) :
    scanIndex es name =
      ((es.find? (fun e => e.2.sName == name)).map (fun e => e.2.nId),
       es.foldl freeStep (0, false)) := by
  unfold scanIndex
  rw [foldl_scanStep_decomp, foldl_nameStep_none]

/-- The free-slot fold, started at candidate `c` on a strictly
ascending-key index all of whose keys are at least `c`, ends at a value
that is not a key, is at least `c`, and skips no unused value: every `m`
between `c` and the result is a key. -/
theorem foldl_freeStep_spec (es : mappingIndex_t) (c : Nat)
    (hlb : ∀ e ∈ es, c ≤ e.1) (hs : es.Pairwise (fun a b => a.1 < b.1)) :
    (∀ e ∈ es, e.1 ≠ (es.foldl freeStep (c, false)).1) ∧
    c ≤ (es.foldl freeStep (c, false)).1 ∧
    (∀ m, c ≤ m → m < (es.foldl freeStep (c, false)).1 → ∃ e ∈ es, e.1 = m) := by
  induction es generalizing c with
  | nil =>
    refine ⟨by simp, le_refl c, ?_⟩
    intro m hcm hmc
    exact absurd (lt_of_le_of_lt hcm hmc) (lt_irrefl c)
  | cons e es ih =>
    rcases List.pairwise_cons.mp hs with ⟨hhead, htail⟩
    by_cases h : e.1 = c
    · have hstep : freeStep (c, false) e = (c + 1, false) := by
        simp [freeStep, h]
      have hlb' : ∀ x ∈ es, c + 1 ≤ x.1 := by
        intro x hx
        have := hhead x hx
        omega
      rcases ih (c + 1) hlb' htail with ⟨h1, h2, h3⟩
      rw [List.foldl_cons, hstep]
      refine ⟨?_, by omega, ?_⟩
      · intro x hx
        rcases List.mem_cons.mp hx with rfl | hx'
        · omega
        · exact h1 x hx'
      · intro m hcm hmlt
        by_cases hm : m = c
        · exact ⟨e, List.mem_cons_self e es, by omega⟩
        · rcases h3 m (by omega) hmlt with ⟨x, hx, hxe⟩
          exact ⟨x, List.mem_cons_of_mem e hx, hxe⟩
    · have hstep : freeStep (c, false) e = (c, true) := by
        simp [freeStep, h]
      rw [List.foldl_cons, hstep, foldl_freeStep_true]
      refine ⟨?_, le_refl c, ?_⟩
      · intro x hx
        rcases List.mem_cons.mp hx with rfl | hx'
        · exact h
        · have h1 : c ≤ e.1 := hlb e (List.mem_cons_self e es)
          have h2 : e.1 < x.1 := hhead x hx'
          omega
      · intro m hcm hmlt
        exact absurd (lt_of_le_of_lt hcm hmlt) (lt_irrefl c)

/-- The free-slot fold advances the candidate at most once per record. -/
theorem foldl_freeStep_le (es : mappingIndex_t) (c : Nat) (b : Bool) :
    (es.foldl freeStep (c, b)).1 ≤ c + es.length := by
  induction es generalizing c b with
  | nil => simp
  | cons e es ih =>
    rw [List.foldl_cons]
    cases b with
    | true =>
      rw [show freeStep (c, true) e = (c, true) from by simp [freeStep]]
      have := ih c true
      simpa [List.length_cons] using Nat.le_trans this (by omega)
    | false =>
      by_cases h : e.1 = c
      · rw [show freeStep (c, false) e = (c + 1, false) from by simp [freeStep, h]]
        have := ih (c + 1) false
        simp only [List.length_cons]
        omega
      · rw [show freeStep (c, false) e = (c, true) from by simp [freeStep, h]]
        have := ih c true
        simp only [List.length_cons]
        omega

/-! ## Lemmas about key lookup and insertion on sorted indices -/

/-- On an index with strictly ascending keys, looking up a member's key
finds exactly that member. -/
theorem find?_key_eq_of_mem (es : mappingIndex_t) (e : Nat × CMapping)
    (hs : sortedKeys es) (he : e ∈ es) :
    es.find? (fun x => x.1 == e.1) = some e := by
  induction es with
  | nil => cases he
  | cons a es ih =>
    rcases List.pairwise_cons.mp hs with ⟨hhead, htail⟩
    rcases List.mem_cons.mp he with rfl | he'
    · exact List.find?_cons_of_pos es (show (fun x : Nat × CMapping => x.1 == e.1) e = true by simp)
    · have hne : a.1 ≠ e.1 := Nat.ne_of_lt (hhead e he')
      have hf : (a :: es).find? (fun x => x.1 == e.1) = es.find? (fun x => x.1 == e.1) :=
        List.find?_cons_of_neg es (show ¬(fun x : Nat × CMapping => x.1 == e.1) a = true by simp [hne])
      rw [hf]
      exact ih htail he'

/-- Two members of a strictly ascending-key index with equal keys are the
same entry. -/
theorem eq_of_mem_of_key_eq (es : mappingIndex_t) (e f : Nat × CMapping)
    (hs : sortedKeys es) (he : e ∈ es) (hf : f ∈ es) (hk : e.1 = f.1) :
    e = f := by
  induction es with
  | nil => cases he
  | cons a es ih =>
    rcases List.pairwise_cons.mp hs with ⟨hhead, htail⟩
    rcases List.mem_cons.mp he with rfl | he' <;> rcases List.mem_cons.mp hf with rfl | hf'
    · rfl
    · exact absurd hk (Nat.ne_of_lt (hhead f hf'))
    · exact absurd hk.symm (Nat.ne_of_lt (hhead e he'))
    · exact ih htail he' hf'

/-- `find?` returns the earliest match, and on a strictly ascending-key
index the earliest match has the least key among all matches. -/
theorem find?_key_le_of_match (es : mappingIndex_t) (p : Nat × CMapping → Bool)
    (f x : Nat × CMapping) (hs : sortedKeys es)
    (hfind : es.find? p = some f) (hx : x ∈ es) (hpx : p x = true) :
    f.1 ≤ x.1 := by
  induction es with
  | nil => cases hx
  | cons a es ih =>
    rcases List.pairwise_cons.mp hs with ⟨hhead, htail⟩
    cases hpa : p a with
    | true =>
      have haf : a = f :=
        Option.some.inj (by rw [← List.find?_cons_of_pos es hpa, hfind])
      subst haf
      rcases List.mem_cons.mp hx with rfl | hx'
      · exact Nat.le_refl _
      · exact Nat.le_of_lt (hhead x hx')
    | false =>
      have hf : (a :: es).find? p = es.find? p :=
        List.find?_cons_of_neg es (by simp [hpa])
      rcases List.mem_cons.mp hx with rfl | hx'
      · rw [hpa] at hpx; cases hpx
      · exact ih htail (hf ▸ hfind) hx'

/-- Looking up a key absent from the original index in the index extended
with a record at that key finds the new record. -/
theorem find?_insertEntry_fresh (es : mappingIndex_t) (k : Nat) (cm : CMapping)
    (hfresh : ∀ x ∈ es, x.1 ≠ k) :
    (insertEntry es k cm).find? (fun x => x.1 == k) = some (k, cm) := by
  induction es with
  | nil =>
    simp [insertEntry, List.find?]
  | cons a es ih =>
    have hak : a.1 ≠ k := hfresh a (List.mem_cons_self a es)
    unfold insertEntry
    by_cases h1 : k < a.1
    · simp only [if_pos h1]
      exact List.find?_cons_of_pos _ (by simp)
    · have h2 : ¬k = a.1 := fun h => hak h.symm
      simp only [if_neg h1, if_neg h2]
      have hf : (a :: insertEntry es k cm).find? (fun x => x.1 == k) =
          (insertEntry es k cm).find? (fun x => x.1 == k) :=
        List.find?_cons_of_neg _ (by simp [hak])
      rw [hf]
      exact ih (fun x hx => hfresh x (List.mem_cons_of_mem a hx))

/-- Looking up a name that no original record carries in the index extended
with a record carrying it finds the new record. -/
theorem find?_insertEntry_name (es : mappingIndex_t) (k : Nat) (cm : CMapping)
    (name : String) (hcm : cm.sName = name) (habs : ∀ x ∈ es, x.2.sName ≠ name) :
    (insertEntry es k cm).find? (fun x => x.2.sName == name) = some (k, cm) := by
  induction es with
  | nil =>
    simp [insertEntry, List.find?, hcm]
  | cons a es ih =>
    have hane : a.2.sName ≠ name := habs a (List.mem_cons_self a es)
    unfold insertEntry
    by_cases h1 : k < a.1
    · simp only [if_pos h1]
      exact List.find?_cons_of_pos _ (by simp [hcm])
    · by_cases h2 : k = a.1
      · simp only [if_neg h1, if_pos h2]
        exact List.find?_cons_of_pos _ (by simp [hcm])
      · simp only [if_neg h1, if_neg h2]
        have hf : (a :: insertEntry es k cm).find? (fun x => x.2.sName == name) =
            (insertEntry es k cm).find? (fun x => x.2.sName == name) :=
          List.find?_cons_of_neg _ (by simp [hane])
        rw [hf]
        exact ih (fun x hx => habs x (List.mem_cons_of_mem a hx))

/-! ## Characterisation of the two handlers on a valid, loaded namespace -/

/-- On a valid token and a loaded index, `getmappingid` is determined by
the first name match: found means its stored `nId` with `exists = true`
and no write; not found means the free slot with `exists = false` and one
`Save` of the new version-1 record. -/
theorem getmappingid_eq (store : Store) (mIndex name : String) (es : mappingIndex_t)
    (hv : CMapping.ToTypeName (CMapping.FromTypeName mIndex) = mIndex)
    (hl : store.data (CMapping.FromTypeName mIndex) = some es) :
    getmappingid store mIndex name =
      match es.find? (fun e => e.2.sName == name) with
      | some e => (.ok ⟨e.2.nId, true, mIndex⟩, store)
      | none => (.ok ⟨freeSlot es, false, mIndex⟩,
                 store.save ⟨CMapping.FromTypeName mIndex, freeSlot es, name, 1⟩) := by
  unfold getmappingid
  rw [if_neg (by simp [hv]), hl]
  simp only [scanIndex_eq]
  cases hfind : es.find? (fun e => e.2.sName == name) with
  | some e => simp
  | none => simp [freeSlot]

/-- On a valid token and a loaded index, `getmappingname` is determined by
the first record filed under the requested key: found means its name with
`exists = true`, absent means the not-found error; the store is returned
unchanged either way. -/
theorem getmappingname_eq (store : Store) (mIndex : String) (id : Nat)
    (es : mappingIndex_t)
    (hv : CMapping.ToTypeName (CMapping.FromTypeName mIndex) = mIndex)
    (hl : store.data (CMapping.FromTypeName mIndex) = some es) :
    getmappingname store mIndex id =
      match es.find? (fun e => e.1 == id) with
      | some e => (.ok ⟨e.2.sName, true, mIndex⟩, store)
      | none => (.error .mappingNotFound, store) := by
  unfold getmappingname
  rw [if_neg (by simp [hv]), hl]

/-! ## The claims -/

/-- Claim C1: for every loaded index with the `std::map` ascending-key
iteration order, the free slot `getmappingid` allocates is the smallest
non-negative integer not present among the index's keys: it is not a key,
every smaller value is a key, and when the index has no gaps it equals the
index's size. -/
theorem freeSlot_smallest_absent (es : mappingIndex_t) (hs : sortedKeys es) :
    (∀ e ∈ es, e.1 ≠ freeSlot es) ∧
    (∀ m : Nat, m < freeSlot es → ∃ e ∈ es, e.1 = m) ∧
    ((∀ m : Nat, m < es.length → ∃ e ∈ es, e.1 = m) → freeSlot es = es.length) := by
  have h := foldl_freeStep_spec es 0 (fun e _ => Nat.zero_le _) hs
  refine ⟨h.1, fun m hm => h.2.2 m (Nat.zero_le _) hm, ?_⟩
  intro hnogap
  have hle : freeSlot es ≤ es.length := by
    simpa using foldl_freeStep_le es 0 false
  rcases Nat.lt_or_ge (freeSlot es) es.length with hlt | hge
  · rcases hnogap (freeSlot es) hlt with ⟨e, he, hke⟩
    exact absurd hke (h.1 e he)
  · exact Nat.le_antisymm hle hge

/-- Witness for C1 at the spec's example index with ids `{0, 1, 3}`, whose
free slot evaluates to `2`. -/
theorem freeSlot_smallest_absent_witness :
    sortedKeys sample13 ∧ freeSlot sample13 = 2 ∧
    ((∀ e ∈ sample13, e.1 ≠ freeSlot sample13) ∧
     (∀ m : Nat, m < freeSlot sample13 → ∃ e ∈ sample13, e.1 = m) ∧
     ((∀ m : Nat, m < sample13.length → ∃ e ∈ sample13, e.1 = m) →
       freeSlot sample13 = sample13.length)) :=
  ⟨by decide, by decide, freeSlot_smallest_absent sample13 (by decide)⟩

/-- Claim C2: on a valid token and a loaded, well-formed index (ascending
keys, stored ids matching keys), the id `getmappingid` returns for a name
resolves back through `getmappingname` to that same name. -/
theorem getOrCreate_resolve_roundtrip (store : Store) (mIndex name : String)
    (es : mappingIndex_t)
    (hv : CMapping.ToTypeName (CMapping.FromTypeName mIndex) = mIndex)
    (hl : store.data (CMapping.FromTypeName mIndex) = some es)
    (hs : sortedKeys es) (hw : idsMatchKeys es) :
    ∃ res store2, getmappingid store mIndex name = (.ok res, store2) ∧
      ∃ nres, (getmappingname store2 mIndex res.mappingId).1 = .ok nres ∧
        nres.mappingName = name := by
  rw [getmappingid_eq store mIndex name es hv hl]
  cases hfind : es.find? (fun e => e.2.sName == name) with
  | some e =>
    refine ⟨⟨e.2.nId, true, mIndex⟩, store, rfl, ?_⟩
    have hmem : e ∈ es := List.mem_of_find?_eq_some hfind
    have hid : e.2.nId = e.1 := hw e hmem
    have hname : e.2.sName = name := by
      have := List.find?_some hfind
      simpa using this
    have hkey : es.find? (fun x => x.1 == e.1) = some e :=
      find?_key_eq_of_mem es e hs hmem
    refine ⟨⟨e.2.sName, true, mIndex⟩, ?_, hname⟩
    show (getmappingname store mIndex e.2.nId).1 = _
    rw [hid, getmappingname_eq store mIndex e.1 es hv hl, hkey]
  | none =>
    refine ⟨⟨freeSlot es, false, mIndex⟩,
      Store.save store ⟨CMapping.FromTypeName mIndex, freeSlot es, name, 1⟩, rfl, ?_⟩
    have hfresh : ∀ x ∈ es, x.1 ≠ freeSlot es :=
      (foldl_freeStep_spec es 0 (fun e _ => Nat.zero_le _) hs).1
    have hl2 : (Store.save store ⟨CMapping.FromTypeName mIndex, freeSlot es, name, 1⟩).data
        (CMapping.FromTypeName mIndex) =
        some (insertEntry es (freeSlot es) ⟨CMapping.FromTypeName mIndex, freeSlot es, name, 1⟩) := by
      simp [Store.save, hl]
    have hkey : (insertEntry es (freeSlot es)
        ⟨CMapping.FromTypeName mIndex, freeSlot es, name, 1⟩).find?
          (fun x => x.1 == freeSlot es) =
        some (freeSlot es, ⟨CMapping.FromTypeName mIndex, freeSlot es, name, 1⟩) :=
      find?_insertEntry_fresh es (freeSlot es) _ hfresh
    refine ⟨⟨name, true, mIndex⟩, ?_, rfl⟩
    show (getmappingname _ mIndex (freeSlot es)).1 = _
    rw [getmappingname_eq _ mIndex (freeSlot es) _ hv hl2, hkey]

/-- Witness for C2 on the sample store, resolving the id of the existing
name Beta. -/
theorem getOrCreate_resolve_roundtrip_witness :
    CMapping.ToTypeName (CMapping.FromTypeName "team") = "team" ∧
    sampleStore.data (CMapping.FromTypeName "team") = some sample13 ∧
    sortedKeys sample13 ∧ idsMatchKeys sample13 ∧
    (∃ res store2, getmappingid sampleStore "team" "Beta" = (.ok res, store2) ∧
      ∃ nres, (getmappingname store2 "team" res.mappingId).1 = .ok nres ∧
        nres.mappingName = "Beta") :=
  ⟨by decide, by decide, by decide, by decide,
   getOrCreate_resolve_roundtrip sampleStore "team" "Beta" sample13
     (by decide) (by decide) (by decide) (by decide)⟩

/-- Claim C3: on a valid token and a loaded index holding no record with
the requested name, two successive identical `getmappingid` calls (the
second seeing the store the first left) return the same id, the first with
`exists = false` (created) and the second with `exists = true` (found). -/
theorem getOrCreate_idempotent (store : Store) (mIndex name : String)
    (es : mappingIndex_t)
    (hv : CMapping.ToTypeName (CMapping.FromTypeName mIndex) = mIndex)
    (hl : store.data (CMapping.FromTypeName mIndex) = some es)
    (habs : ∀ e ∈ es, e.2.sName ≠ name) :
    ∃ store1,
      getmappingid store mIndex name = (.ok ⟨freeSlot es, false, mIndex⟩, store1) ∧
      (getmappingid store1 mIndex name).1 = .ok ⟨freeSlot es, true, mIndex⟩ := by
  have hfind : es.find? (fun e => e.2.sName == name) = none := by
    rw [List.find?_eq_none]
    intro x hx
    simpa using habs x hx
  rw [getmappingid_eq store mIndex name es hv hl, hfind]
  refine ⟨_, rfl, ?_⟩
  have hl2 : (Store.save store ⟨CMapping.FromTypeName mIndex, freeSlot es, name, 1⟩).data
      (CMapping.FromTypeName mIndex) =
      some (insertEntry es (freeSlot es) ⟨CMapping.FromTypeName mIndex, freeSlot es, name, 1⟩) := by
    simp [Store.save, hl]
  rw [getmappingid_eq _ mIndex name _ hv hl2]
  have hfind2 : (insertEntry es (freeSlot es)
      ⟨CMapping.FromTypeName mIndex, freeSlot es, name, 1⟩).find?
        (fun e => e.2.sName == name) =
      some (freeSlot es, ⟨CMapping.FromTypeName mIndex, freeSlot es, name, 1⟩) :=
    find?_insertEntry_name es (freeSlot es) _ name rfl habs
  rw [hfind2]

/-- Witness for C3 on the sample store with the fresh name Delta, created
at the free slot `2` and found there by the repeat call. -/
theorem getOrCreate_idempotent_witness :
    CMapping.ToTypeName (CMapping.FromTypeName "team") = "team" ∧
    sampleStore.data (CMapping.FromTypeName "team") = some sample13 ∧
    (∀ e ∈ sample13, e.2.sName ≠ "Delta") ∧
    (∃ store1,
      getmappingid sampleStore "team" "Delta" =
        (.ok ⟨freeSlot sample13, false, "team"⟩, store1) ∧
      (getmappingid store1 "team" "Delta").1 = .ok ⟨freeSlot sample13, true, "team"⟩) :=
  ⟨by decide, by decide, by decide,
   getOrCreate_idempotent sampleStore "team" "Delta" sample13
     (by decide) (by decide) (by decide)⟩

/-- Claim C4: on a valid token and a loaded index whose first name match is
`e`, `getmappingid` returns `e`'s stored id with `exists = true` and leaves
the store untouched (no `Save`). -/
theorem getOrCreate_found_no_write (store : Store) (mIndex name : String)
    (es : mappingIndex_t) (e : Nat × CMapping)
    (hv : CMapping.ToTypeName (CMapping.FromTypeName mIndex) = mIndex)
    (hl : store.data (CMapping.FromTypeName mIndex) = some es)
    (hfind : es.find? (fun x => x.2.sName == name) = some e) :
    getmappingid store mIndex name = (.ok ⟨e.2.nId, true, mIndex⟩, store) := by
  rw [getmappingid_eq store mIndex name es hv hl, hfind]

/-- Witness for C4 on the sample store: looking up Beta neither writes nor
creates. -/
theorem getOrCreate_found_no_write_witness :
    CMapping.ToTypeName (CMapping.FromTypeName "team") = "team" ∧
    sampleStore.data (CMapping.FromTypeName "team") = some sample13 ∧
    sample13.find? (fun x => x.2.sName == "Beta") =
      some (1, ⟨.teamMapping, 1, "Beta", 1⟩) ∧
    getmappingid sampleStore "team" "Beta" = (.ok ⟨1, true, "team"⟩, sampleStore) :=
  ⟨by decide, by decide, by decide,
   getOrCreate_found_no_write sampleStore "team" "Beta" sample13
     (1, ⟨.teamMapping, 1, "Beta", 1⟩) (by decide) (by decide) (by decide)⟩

/-- Claim C5: on a valid token and a loaded index with no name match,
`getmappingid` saves exactly one new record — keyed at the free slot, of
the resolved type, with the requested name and version 1 — into that
namespace, leaves every other namespace unchanged, and returns the free
slot with `exists = false` (created). -/
theorem getOrCreate_creates_record (store : Store) (mIndex name : String)
    (es : mappingIndex_t)
    (hv : CMapping.ToTypeName (CMapping.FromTypeName mIndex) = mIndex)
    (hl : store.data (CMapping.FromTypeName mIndex) = some es)
    (habs : ∀ e ∈ es, e.2.sName ≠ name) :
    getmappingid store mIndex name =
      (.ok ⟨freeSlot es, false, mIndex⟩,
       Store.save store ⟨CMapping.FromTypeName mIndex, freeSlot es, name, 1⟩) ∧
    (Store.save store ⟨CMapping.FromTypeName mIndex, freeSlot es, name, 1⟩).data
        (CMapping.FromTypeName mIndex) =
      some (insertEntry es (freeSlot es)
        ⟨CMapping.FromTypeName mIndex, freeSlot es, name, 1⟩) ∧
    ∀ t, t ≠ CMapping.FromTypeName mIndex →
      (Store.save store ⟨CMapping.FromTypeName mIndex, freeSlot es, name, 1⟩).data t =
        store.data t := by
  have hfind : es.find? (fun e => e.2.sName == name) = none := by
    rw [List.find?_eq_none]
    intro x hx
    simpa using habs x hx
  refine ⟨by rw [getmappingid_eq store mIndex name es hv hl, hfind], ?_, ?_⟩
  · simp [Store.save, hl]
  · intro t ht
    simp [Store.save, ht]

/-- Witness for C5 on the sample store with the fresh name Delta. -/
theorem getOrCreate_creates_record_witness :
    CMapping.ToTypeName (CMapping.FromTypeName "team") = "team" ∧
    sampleStore.data (CMapping.FromTypeName "team") = some sample13 ∧
    (∀ e ∈ sample13, e.2.sName ≠ "Delta") ∧
    (getmappingid sampleStore "team" "Delta" =
      (.ok ⟨freeSlot sample13, false, "team"⟩,
       Store.save sampleStore ⟨CMapping.FromTypeName "team", freeSlot sample13, "Delta", 1⟩) ∧
     (Store.save sampleStore ⟨CMapping.FromTypeName "team", freeSlot sample13, "Delta", 1⟩).data
        (CMapping.FromTypeName "team") =
       some (insertEntry sample13 (freeSlot sample13)
         ⟨CMapping.FromTypeName "team", freeSlot sample13, "Delta", 1⟩) ∧
     ∀ t, t ≠ CMapping.FromTypeName "team" →
       (Store.save sampleStore
         ⟨CMapping.FromTypeName "team", freeSlot sample13, "Delta", 1⟩).data t =
         sampleStore.data t) :=
  ⟨by decide, by decide, by decide,
   getOrCreate_creates_record sampleStore "team" "Delta" sample13
     (by decide) (by decide) (by decide)⟩

/-- Claim C6: a token that does not round-trip through the Type Catalog
makes both handlers fail with the invalid-mapping-type error, whatever the
store holds, and the store is returned untouched. -/
theorem invalid_token_rejected (store : Store) (mIndex name : String) (id : Nat)
    (hinv : CMapping.ToTypeName (CMapping.FromTypeName mIndex) ≠ mIndex) :
    getmappingid store mIndex name = (.error .invalidMappingType, store) ∧
    getmappingname store mIndex id = (.error .invalidMappingType, store) := by
  constructor
  · unfold getmappingid
    rw [if_pos hinv]
  · unfold getmappingname
    rw [if_pos hinv]

/-- Witness for C6 at the spec's example token. -/
theorem invalid_token_rejected_witness :
    CMapping.ToTypeName (CMapping.FromTypeName "not-a-real-type") ≠ "not-a-real-type" ∧
    getmappingid sampleStore "not-a-real-type" "x" =
      (.error .invalidMappingType, sampleStore) ∧
    getmappingname sampleStore "not-a-real-type" 0 =
      (.error .invalidMappingType, sampleStore) :=
  ⟨by decide, invalid_token_rejected sampleStore "not-a-real-type" "x" 0 (by decide)⟩

/-- Claim C7: on a valid token whose namespace the store cannot load, both
handlers fail with the index-unavailable error and the store is returned
untouched — no empty index is provisioned. -/
theorem index_unavailable_rejected (store : Store) (mIndex name : String) (id : Nat)
    (hv : CMapping.ToTypeName (CMapping.FromTypeName mIndex) = mIndex)
    (hnone : store.data (CMapping.FromTypeName mIndex) = none) :
    getmappingid store mIndex name = (.error .indexUnavailable, store) ∧
    getmappingname store mIndex id = (.error .indexUnavailable, store) := by
  constructor
  · unfold getmappingid
    rw [if_neg (by simp [hv]), hnone]
  · unfold getmappingname
    rw [if_neg (by simp [hv]), hnone]

/-- Witness for C7: the sample store has no sport index. -/
theorem index_unavailable_rejected_witness :
    CMapping.ToTypeName (CMapping.FromTypeName "sport") = "sport" ∧
    sampleStore.data (CMapping.FromTypeName "sport") = none ∧
    getmappingid sampleStore "sport" "Football" =
      (.error .indexUnavailable, sampleStore) ∧
    getmappingname sampleStore "sport" 0 = (.error .indexUnavailable, sampleStore) :=
  ⟨by decide, by decide,
   index_unavailable_rejected sampleStore "sport" "Football" 0 (by decide) (by decide)⟩

/-- Claim C8: on a valid token and a loaded ascending-key index,
`getmappingname` returns the name of the record filed under the requested
id with `exists = true` when present, fails with the not-found error
exactly when no record is filed under that id, and returns the store
untouched in both cases. -/
theorem resolveMappingName_found_iff (store : Store) (mIndex : String) (id : Nat)
    (es : mappingIndex_t)
    (hv : CMapping.ToTypeName (CMapping.FromTypeName mIndex) = mIndex)
    (hl : store.data (CMapping.FromTypeName mIndex) = some es)
    (hs : sortedKeys es) :
    (∀ e ∈ es, e.1 = id →
      getmappingname store mIndex id = (.ok ⟨e.2.sName, true, mIndex⟩, store)) ∧
    ((∀ e ∈ es, e.1 ≠ id) →
      getmappingname store mIndex id = (.error .mappingNotFound, store)) := by
  constructor
  · intro e he hke
    have hkey : es.find? (fun x => x.1 == id) = some e := by
      rw [← hke]
      exact find?_key_eq_of_mem es e hs he
    rw [getmappingname_eq store mIndex id es hv hl, hkey]
  · intro habs
    have hnone : es.find? (fun x => x.1 == id) = none := by
      rw [List.find?_eq_none]
      intro x hx
      simpa using habs x hx
    rw [getmappingname_eq store mIndex id es hv hl, hnone]

/-- Witness for C8: id 3 resolves to Gamma, id 5 is not found, on the
sample store. -/
theorem resolveMappingName_found_iff_witness :
    CMapping.ToTypeName (CMapping.FromTypeName "team") = "team" ∧
    sampleStore.data (CMapping.FromTypeName "team") = some sample13 ∧
    sortedKeys sample13 ∧
    (∀ e ∈ sample13, e.1 = 5 → getmappingname sampleStore "team" 5 =
      (.ok ⟨e.2.sName, true, "team"⟩, sampleStore)) ∧
    ((∀ e ∈ sample13, e.1 ≠ 5) →
      getmappingname sampleStore "team" 5 = (.error .mappingNotFound, sampleStore)) :=
  ⟨by decide, by decide, by decide,
   resolveMappingName_found_iff sampleStore "team" 5 sample13
     (by decide) (by decide) (by decide)⟩

/-- Claim C9: even on an index holding several records with the requested
name (a data-integrity violation), `getmappingid` returns the stored id of
the match with the least key — the first met in ascending-id order — and
the later matches do not affect the result. -/
theorem duplicate_names_first_wins (store : Store) (mIndex name : String)
    (es : mappingIndex_t) (e : Nat × CMapping)
    (hv : CMapping.ToTypeName (CMapping.FromTypeName mIndex) = mIndex)
    (hl : store.data (CMapping.FromTypeName mIndex) = some es)
    (hs : sortedKeys es)
    (he : e ∈ es) (hname : e.2.sName = name)
    (hmin : ∀ x ∈ es, x.2.sName = name → e.1 ≤ x.1) :
    (getmappingid store mIndex name).1 = .ok ⟨e.2.nId, true, mIndex⟩ := by
  cases hf : es.find? (fun x => x.2.sName == name) with
  | none =>
    rw [List.find?_eq_none] at hf
    exact absurd (by simp [hname]) (hf e he)
  | some f =>
    have hfm : f ∈ es := List.mem_of_find?_eq_some hf
    have hfp : f.2.sName = name := by
      have := List.find?_some hf
      simpa using this
    have h1 : f.1 ≤ e.1 := find?_key_le_of_match es _ f e hs hf he (by simp [hname])
    have h2 : e.1 ≤ f.1 := hmin f hfm hfp
    have hef : e = f := eq_of_mem_of_key_eq es e f hs he hfm (Nat.le_antisymm h2 h1)
    rw [getmappingid_eq store mIndex name es hv hl, hf, hef]

/-- Witness for C9 on the store whose team index holds the name Dup at ids
0 and 2: id 0 wins. -/
theorem duplicate_names_first_wins_witness :
    CMapping.ToTypeName (CMapping.FromTypeName "team") = "team" ∧
    sampleDupStore.data (CMapping.FromTypeName "team") = some sampleDup ∧
    sortedKeys sampleDup ∧
    (0, (⟨.teamMapping, 0, "Dup", 1⟩ : CMapping)) ∈ sampleDup ∧
    (∀ x ∈ sampleDup, x.2.sName = "Dup" →
      (0, (⟨.teamMapping, 0, "Dup", 1⟩ : CMapping)).1 ≤ x.1) ∧
    (getmappingid sampleDupStore "team" "Dup").1 = .ok ⟨0, true, "team"⟩ :=
  ⟨by decide, by decide, by decide, by decide, by decide,
   duplicate_names_first_wins sampleDupStore "team" "Dup" sampleDup
     (0, ⟨.teamMapping, 0, "Dup", 1⟩)
     (by decide) (by decide) (by decide) (by decide) (by decide) (by decide)⟩

/-- Claim C10: in the found case `getmappingid` answers with the `nId`
field stored inside the first matching record, not with the map key it is
filed under: on an index whose record stores an `nId` different from its
key, the returned id is the stored field and differs from the key, while
`getmappingname` resolves that record by its key. -/
theorem found_returns_stored_id_field (store : Store) (mIndex name : String)
    (es : mappingIndex_t) (e : Nat × CMapping)
    (hv : CMapping.ToTypeName (CMapping.FromTypeName mIndex) = mIndex)
    (hl : store.data (CMapping.FromTypeName mIndex) = some es)
    (hs : sortedKeys es)
    (hfind : es.find? (fun x => x.2.sName == name) = some e)
    (hne : e.2.nId ≠ e.1) :
    (getmappingid store mIndex name).1 = .ok ⟨e.2.nId, true, mIndex⟩ ∧
    (getmappingid store mIndex name).1 ≠ .ok ⟨e.1, true, mIndex⟩ ∧
    (getmappingname store mIndex e.1).1 = .ok ⟨e.2.sName, true, mIndex⟩ := by
  have hres : (getmappingid store mIndex name).1 = .ok ⟨e.2.nId, true, mIndex⟩ := by
    rw [getmappingid_eq store mIndex name es hv hl, hfind]
  refine ⟨hres, ?_, ?_⟩
  · rw [hres]
    intro hcontra
    exact hne (congrArg MappingIdResult.mappingId (Except.ok.inj hcontra))
  · have hmem : e ∈ es := List.mem_of_find?_eq_some hfind
    have hkey : es.find? (fun x => x.1 == e.1) = some e :=
      find?_key_eq_of_mem es e hs hmem
    rw [getmappingname_eq store mIndex e.1 es hv hl, hkey]

/-- Witness for C10 on the store whose single team record is filed under
key 0 but stores nId 7: the lookup answers 7, not 0, and resolve-by-id
finds the record at 0. -/
theorem found_returns_stored_id_field_witness :
    CMapping.ToTypeName (CMapping.FromTypeName "team") = "team" ∧
    sampleMisStore.data (CMapping.FromTypeName "team") = some sampleMis ∧
    sortedKeys sampleMis ∧
    sampleMis.find? (fun x => x.2.sName == "Odd") =
      some (0, ⟨.teamMapping, 7, "Odd", 1⟩) ∧
    ((getmappingid sampleMisStore "team" "Odd").1 = .ok ⟨7, true, "team"⟩ ∧
     (getmappingid sampleMisStore "team" "Odd").1 ≠ .ok ⟨0, true, "team"⟩ ∧
     (getmappingname sampleMisStore "team" 0).1 = .ok ⟨"Odd", true, "team"⟩) :=
  ⟨by decide, by decide, by decide, by decide,
   found_returns_stored_id_field sampleMisStore "team" "Odd" sampleMis
     (0, ⟨.teamMapping, 7, "Odd", 1⟩)
     (by decide) (by decide) (by decide) (by decide) (by decide)⟩
